import Mathlib

/-!
Shallow embedding of the REINFORCE function-optimization experiment
(notebook `REINFORCE.ipynb`): the pseudo-Boolean objective functions
(`one_max`, `two_max`, `plateaus`), the logistic squashing function
`sigmoid`, and the team-network optimizer loop (sample, evaluate,
baseline update, weight update, known-optimum termination check).

Bit vectors are embedded as `List ℚ` (the notebook works on numpy
float vectors whose entries are the bits 0.0 / 1.0; all objective
arithmetic is exact, so rationals embed it faithfully).  The optimizer
loop works over `ℝ` because the logistic function uses `Real.exp`.
-/

namespace Reinforce

/-- Embedding of `one_max`: `J = 10*np.sum(u)`. -/
def one_max (u : List ℚ) : ℚ := 10 * u.sum

/-- Embedding of `two_max`: the executed line is `J = abs(18*sum(u)-8*len(u))`.
Note the docstring of the source function announces an extra outer factor 18
(`18*|18*(numbers of 1s) - 8*n|`) that the executed code does not apply. -/
def two_max (u : List ℚ) : ℚ := |18 * u.sum - 8 * (u.length : ℚ)|

/-- Number of entries equal to 1 in a rational vector; on bit vectors this is
the number of ones, and equals the sum of the entries. -/
def countOnes : List ℚ → ℕ
  | [] => 0
  | x :: t => (if x = 1 then 1 else 0) + countOnes t

/-- The predicate cutting out bit vectors: every entry is 0 or 1. -/
def isBitVec (u : List ℚ) : Prop := ∀ x ∈ u, x = 0 ∨ x = 1

/-- Flip every bit of a bit vector (`1 - x` entrywise). -/
def bitFlip (u : List ℚ) : List ℚ := u.map (fun x => 1 - x)

/-- Index list of the inner loop of `plateaus` for quartile `k`:
`range(int(k * n/4+1), int((k+1) * n/4))` from the source (with `n` a
multiple of 4 the float divisions are exact, so Nat division embeds them). -/
def quartileRange (n k : ℕ) : List ℕ :=
  List.range' (k * (n / 4) + 1) ((k + 1) * (n / 4) - (k * (n / 4) + 1))

/-- Embedding of the accumulation loops of `plateaus`.  The accumulator pair
is `(J, J_k)`; exactly as in the source, `J` is seeded at 0 and `J_k` is
seeded at 1 once, before the `k` loop, and is NOT re-seeded between
quartiles; each inner step multiplies by `2.5 * n * u[i]`. -/
def plateausSum (u : List ℚ) : ℚ :=
  (((List.range 4).foldl
      (fun acc k =>
        let Jk := (quartileRange u.length k).foldl
          (fun jk i => jk * (5 / 2) * (u.length : ℚ) * u.getD i 0) acc.2
        (acc.1 + Jk, Jk))
      ((0 : ℚ), (1 : ℚ)))).1

/-- Embedding of `plateaus`: the source asserts `n % 4 == 0` (message
`n must be a multiple of 4.`) before running any loop; the failing assert is
modelled as `none`, a normal return as `some`. -/
def plateaus (u : List ℚ) : Option ℚ :=
  if u.length % 4 = 0 then some (plateausSum u) else none

/-- Embedding of `sigmoid`: `s = 1/(1+np.exp(-x))`, over the reals. -/
noncomputable def sigmoid (x : ℝ) : ℝ := 1 / (1 + Real.exp (-x))

/-- Configuration of one optimizer run.  The notebook cell fixes
`n = 10`, `T = 1000000`, `alpha = 0.01`, `delta = 0.0`, `gamma = 0.9`,
`objective = one_max` and `optimum = np.ones(n)`; the embedding keeps them as
parameters, matching the run contract of the experiment.  Vectors are
functions on unit indices, of which the first `n` are meaningful. -/
structure RunConfig where
  n : ℕ
  T : ℕ
  alpha : ℝ
  delta : ℝ
  gamma : ℝ
  objective : (ℕ → ℝ) → ℝ
  optimum : ℕ → ℝ

/-- Mutable per-iteration state of the loop: the weight vector `w_0[:, t]`,
the reward baseline `r_bar[t]` and the reinforcement factor `rho[t]`. -/
structure LoopState where
  w : ℕ → ℝ
  rbar : ℝ
  rho : ℝ

/-- Bernoulli sampling `y[:, t] = np.random.binomial(1, p[:, t], n)` by
inverse transform: the injected uniform draw `d i` is compared with the
success probability `p i = sigmoid (w i)`; the draw stream stands for the
seeded random source. -/
noncomputable def sampleOf (d : ℕ → ℝ) (s : LoopState) : ℕ → ℝ :=
  fun i => if d i < sigmoid (s.w i) then 1 else 0

/-- One iteration body of the optimizer loop, from the notebook cell:
`p = sigmoid(w)`, `y = Bernoulli(p)`, `e = y - p`, `r = objective(y)`,
`r_bar[t+1] = gamma*r_bar[t] + (1-gamma)*r[t]`,
`rho[t+1] = r[t+1] - r_bar[t]` (the slot `r[t+1]` still holds its zero
initialization at that moment, so the stored value is `0 - r_bar[t]`),
`delta_w = alpha*r*e - delta*w`, `w[t+1] = w[t] + delta_w`. -/
noncomputable def step (cfg : RunConfig) (d : ℕ → ℝ) (s : LoopState) : LoopState :=
  let y := sampleOf d s
  let r := cfg.objective y
  ⟨fun i => s.w i + (cfg.alpha * r * (y i - sigmoid (s.w i)) - cfg.delta * s.w i),
   cfg.gamma * s.rbar + (1 - cfg.gamma) * r,
   0 - s.rbar⟩

/-- The state trajectory of the loop: state before iteration `t`, starting
from the initial state (the notebook seeds `w_0[:, 0]` from `randn` and
`r_bar[0] = rho[0] = r[0] = 0`, all injected here through `init`). -/
noncomputable def traj (cfg : RunConfig) (draws : ℕ → ℕ → ℝ) (init : LoopState) : ℕ → LoopState
  | 0 => init
  | t + 1 => step cfg (draws t) (traj cfg draws init t)

/-- The vector sampled at iteration `t` (`y[:, t]`). -/
noncomputable def sampleAt (cfg : RunConfig) (draws : ℕ → ℕ → ℝ) (init : LoopState)
    (t : ℕ) : ℕ → ℝ :=
  sampleOf (draws t) (traj cfg draws init t)

/-- The raw reward of iteration `t` (`r[t] = objective(y[:, t])`). -/
noncomputable def rewardAt (cfg : RunConfig) (draws : ℕ → ℕ → ℝ) (init : LoopState)
    (t : ℕ) : ℝ :=
  cfg.objective (sampleAt cfg draws init t)

/-- Termination check of the loop: `np.all(y[:, t] == max)`, element-wise
equality with the known optimum over the `n` units. -/
def hitsOpt (cfg : RunConfig) (y : ℕ → ℝ) : Prop :=
  ∀ i, i < cfg.n → y i = cfg.optimum i

/-- Terminal outcome of a run: the sampled vector matched the known optimum
(`break`), or the loop `for t in range(T-1)` ran out of iterations. -/
inductive Outcome where
  | converged : Outcome
  | budgetExhausted : Outcome

/-- Result of a run: outcome, the iteration index `t` left by the loop (the
printed iteration count), the sample `y[:, t]` reported at exit, and the
final state. -/
structure RunResult where
  outcome : Outcome
  iterations : ℕ
  sample : ℕ → ℝ
  final : LoopState

open Classical in
/-- The loop `for t in range(T-1)` with the `break` on the optimum check,
by recursion on the remaining iteration budget (`fuel`).  `t` is the current
iteration index and `lastY` the most recently written sample column (the
`y` array is zero-initialized).  When the budget runs out the Python loop
variable is left at the previous index, hence `t - 1`. -/
noncomputable def loop (cfg : RunConfig) (draws : ℕ → ℕ → ℝ) :
    ℕ → ℕ → LoopState → (ℕ → ℝ) → RunResult
  | 0, t, s, lastY => ⟨Outcome.budgetExhausted, t - 1, lastY, s⟩
  | fuel + 1, t, s, _ =>
    if hitsOpt cfg (sampleOf (draws t) s) then
      ⟨Outcome.converged, t, sampleOf (draws t) s, step cfg (draws t) s⟩
    else
      loop cfg draws fuel (t + 1) (step cfg (draws t) s) (sampleOf (draws t) s)

/-- A full run: `T - 1` loop iterations at most, starting at `t = 0` from
the injected initial state, with the zero-initialized `y` array as the
initial last sample. -/
noncomputable def run (cfg : RunConfig) (draws : ℕ → ℕ → ℝ) (init : LoopState) : RunResult :=
  loop cfg draws (cfg.T - 1) 0 init (fun _ => 0)

/-- Concrete configuration used to instantiate the loop theorems. -/
noncomputable def cfgEx : RunConfig :=
  ⟨1, 2, 0, 0, 0, fun y => y 0, fun _ => 1⟩

/-- Concrete uniform draw stream used to instantiate the loop theorems. -/
noncomputable def drawsEx : ℕ → ℕ → ℝ := fun _ _ => 2

/-- Concrete initial state used to instantiate the loop theorems. -/
noncomputable def initEx : LoopState := ⟨fun _ => 0, 0, 0⟩

/-- A state that agrees with `stB` on weights and baseline but not on the
reinforcement factor. -/
noncomputable def stA : LoopState := ⟨fun _ => 0, 0, 0⟩

/-- A state that agrees with `stA` on weights and baseline but not on the
reinforcement factor. -/
noncomputable def stB : LoopState := ⟨fun _ => 0, 0, 5⟩

/-- Modelled from the spec: the source samples from the ambient numpy global
generator and sets no seed; the spec requires an explicit seedable random
source passed into the optimizer.  A seedable source is modelled as a
function from the seed to the uniform draw stream. -/
noncomputable def drawsOfEx : ℕ → ℕ → ℕ → ℝ := fun _ _ _ => 2

/-- Modelled from the spec: the initial weights are drawn from the seeded
random source (`w_0[:, 0] = np.random.randn(1, n)`), so the initial state is
a function of the seed as well. -/
noncomputable def initOfEx : ℕ → LoopState := fun _ => ⟨fun _ => 0, 0, 0⟩

end Reinforce

namespace Reinforce

theorem sum_bits (u : List ℚ) (h : ∀ x ∈ u, x = 0 ∨ x = 1) :
    u.sum = (countOnes u : ℚ) := by
  induction u with
  | nil => simp [countOnes]
  | cons a t ih =>
    have ha := h a (List.mem_cons_self a t)
    have ht : ∀ x ∈ t, x = 0 ∨ x = 1 := fun x hx => h x (List.mem_cons_of_mem a hx)
    rcases ha with h0 | h1
    · subst h0
      simp only [List.sum_cons, countOnes, if_neg (by norm_num : ¬ (0 : ℚ) = 1)]
      rw [ih ht]; push_cast; ring
    · subst h1
      simp only [List.sum_cons, countOnes, if_pos rfl]
      rw [ih ht]; push_cast; ring

/-- Claim C1, counterexample: on the bit vector `[1]` (n = 1, one 1), the
code returns `|18*1 - 8*1| = 10`, not the claimed `18*|18*1 - 8*1| = 180`. -/
theorem C1_counterexample :
    two_max [(1 : ℚ)] = 10
    ∧ two_max [(1 : ℚ)] ≠ 18 * |18 * ((countOnes [(1 : ℚ)] : ℚ)) - 8 * (([(1 : ℚ)] : List ℚ).length : ℚ)| := by
  constructor <;> norm_num [two_max, countOnes]

/-- Claim C1, amended: for every bit vector `u` of length `n`, the TwoMax
objective returns `|18 * (number of ones in u) - 8 * n|` (the executed code
carries no outer factor 18). -/
theorem C1_amended (u : List ℚ) (h : ∀ x ∈ u, x = 0 ∨ x = 1) :
    two_max u = |18 * (countOnes u : ℚ) - 8 * (u.length : ℚ)| := by
  unfold two_max
  rw [sum_bits u h]

/-- Claim C1, witness for the amended theorem at the concrete input `[1, 0]`. -/
theorem C1_witness :
    two_max [(1 : ℚ), 0] = |18 * (countOnes [(1 : ℚ), 0] : ℚ) - 8 * (([(1 : ℚ), 0] : List ℚ).length : ℚ)| :=
  C1_amended [(1 : ℚ), 0] (by norm_num)

/-- Claim C5, counterexample: for the even length n = 2, flipping every bit
of the all-ones vector changes the TwoMax value (20 becomes 16), and neither
the all-ones value (20) nor the all-zeros value (16) equals `18 * 8n = 288`. -/
theorem C5_counterexample :
    (2 % 2 = 0)
    ∧ two_max (bitFlip (List.replicate 2 (1 : ℚ))) ≠ two_max (List.replicate 2 (1 : ℚ))
    ∧ two_max (List.replicate 2 (1 : ℚ)) ≠ 18 * (8 * 2)
    ∧ two_max (List.replicate 2 (0 : ℚ)) ≠ 18 * (8 * 2) := by
  refine ⟨rfl, ?_, ?_, ?_⟩ <;> norm_num [two_max, bitFlip, List.replicate]

/-- Claim C5, amended: for every even n, the all-ones vector attains TwoMax
value `10n` and the all-zeros vector attains `8n`; for n > 0 these two values
differ, so the two extremes are not equally good and the claimed common
maximum `18 * 8n` is not attained. -/
theorem C5_amended (n : ℕ) (_even : n % 2 = 0) :
    two_max (List.replicate n (1 : ℚ)) = 10 * n
    ∧ two_max (List.replicate n (0 : ℚ)) = 8 * n
    ∧ (0 < n → two_max (List.replicate n (1 : ℚ)) ≠ two_max (List.replicate n (0 : ℚ))) := by
  have e1 : two_max (List.replicate n (1 : ℚ)) = 10 * n := by
    unfold two_max
    rw [List.sum_replicate, List.length_replicate, nsmul_eq_mul, mul_one,
      show (18 : ℚ) * n - 8 * n = 10 * n by ring, abs_of_nonneg (by positivity)]
  have e0 : two_max (List.replicate n (0 : ℚ)) = 8 * n := by
    unfold two_max
    rw [List.sum_replicate, List.length_replicate, smul_zero,
      show (18 : ℚ) * 0 - 8 * n = -(8 * n) by ring, abs_neg,
      abs_of_nonneg (by positivity)]
  refine ⟨e1, e0, fun hn heq => ?_⟩
  rw [e1, e0] at heq
  have hq : (0 : ℚ) < n := by exact_mod_cast hn
  linarith

/-- Claim C5, witness for the amended theorem at n = 2. -/
theorem C5_witness :
    two_max (List.replicate 2 (1 : ℚ)) = 10 * 2
    ∧ two_max (List.replicate 2 (0 : ℚ)) = 8 * 2
    ∧ two_max (List.replicate 2 (1 : ℚ)) ≠ two_max (List.replicate 2 (0 : ℚ)) :=
  ⟨(C5_amended 2 rfl).1, (C5_amended 2 rfl).2.1, (C5_amended 2 rfl).2.2 (by norm_num)⟩

/-- Claim C6: `plateaus` fails (assert, modelled as `none`) exactly when the
input length is not a multiple of 4, and returns normally otherwise; in the
embedding, as in the source, the length check precedes the quartile loops. -/
theorem C6_error (u : List ℚ) :
    (plateaus u = none ↔ u.length % 4 ≠ 0)
    ∧ (u.length % 4 = 0 → plateaus u = some (plateausSum u)) := by
  unfold plateaus
  by_cases h : u.length % 4 = 0
  · rw [if_pos h]
    exact ⟨by simp [h], fun _ => rfl⟩
  · rw [if_neg h]
    exact ⟨by simp [h], fun hh => absurd hh h⟩

/-- Claim C6, witness: length 4 returns normally, length 1 fails. -/
theorem C6_witness :
    plateaus ([1, 1, 1, 1] : List ℚ) = some (plateausSum [1, 1, 1, 1])
    ∧ plateaus ([1] : List ℚ) = none :=
  ⟨(C6_error [1, 1, 1, 1]).2 (by decide), ((C6_error [1]).1).mpr (by decide)⟩

/-- Claim C2: evaluation of the code at the failing input.  With n = 8 and a
single zero at index 1 (inside the open range of quartile 0), the running
product `J_k`, which the source never re-seeds between quartiles, carries the
zero into quartiles 1 to 3: the result is 0, while all-ones gives 168420.
The claim predicts a drop of only that quartile contribution (20), i.e. a
difference of 20; the actual difference is 168420. -/
theorem C2_code_value :
    plateaus [(1 : ℚ), 0, 1, 1, 1, 1, 1, 1] = some 0
    ∧ plateaus (List.replicate 8 (1 : ℚ)) = some 168420
    ∧ plateausSum (List.replicate 8 (1 : ℚ)) - plateausSum [(1 : ℚ), 0, 1, 1, 1, 1, 1, 1] = 168420
    ∧ plateausSum (List.replicate 8 (1 : ℚ)) - plateausSum [(1 : ℚ), 0, 1, 1, 1, 1, 1, 1] ≠ 20 := by
  refine ⟨?_, ?_, ?_, ?_⟩ <;>
    norm_num [plateaus, plateausSum, quartileRange, List.range_succ, List.range', List.replicate]

/-- Claim C10: for every bit vector of length 4 the inner index range of each
quartile (`range(k*1+1, (k+1)*1)`) is empty, so no entry is ever multiplied
into the running product and the result is `1 + 1 + 1 + 1 = 4`. -/
theorem C10_plateaus_const (u : List ℚ) (hbit : ∀ x ∈ u, x = 0 ∨ x = 1)
    (hlen : u.length = 4) : plateaus u = some 4 := by
  rcases u with _ | ⟨a, u⟩
  · simp at hlen
  rcases u with _ | ⟨b, u⟩
  · simp at hlen
  rcases u with _ | ⟨c, u⟩
  · simp at hlen
  rcases u with _ | ⟨d, u⟩
  · simp at hlen
  rcases u with _ | ⟨e, u⟩
  · norm_num [plateaus, plateausSum, quartileRange, List.range_succ, List.range']
  · simp at hlen

/-- Claim C10, witness at the concrete bit vector `[1, 0, 1, 1]`. -/
theorem C10_witness : plateaus [(1 : ℚ), 0, 1, 1] = some 4 :=
  C10_plateaus_const [(1 : ℚ), 0, 1, 1] (by norm_num) (by decide)

theorem traj_zero (cfg : RunConfig) (draws : ℕ → ℕ → ℝ) (init : LoopState) :
    traj cfg draws init 0 = init := rfl

theorem traj_succ (cfg : RunConfig) (draws : ℕ → ℕ → ℝ) (init : LoopState) (t : ℕ) :
    traj cfg draws init (t + 1) = step cfg (draws t) (traj cfg draws init t) := rfl

/-- Claim C9: the logistic squashing function satisfies `sigmoid 0 = 1/2`,
is strictly monotonically increasing, and its value lies strictly between
0 and 1 for every (finite) real input. -/
theorem C9_sigmoid :
    sigmoid 0 = 1 / 2 ∧ StrictMono sigmoid ∧ ∀ x : ℝ, 0 < sigmoid x ∧ sigmoid x < 1 := by
  refine ⟨?_, ?_, ?_⟩
  · unfold sigmoid
    rw [neg_zero, Real.exp_zero]
    norm_num
  · intro a b hab
    unfold sigmoid
    have h1 : (0 : ℝ) < 1 + Real.exp (-b) := by positivity
    have h2 : 1 + Real.exp (-b) < 1 + Real.exp (-a) := by
      have := Real.exp_lt_exp.mpr (neg_lt_neg hab)
      linarith
    exact one_div_lt_one_div_of_lt h1 h2
  · intro x
    have hx : (0 : ℝ) < 1 + Real.exp (-x) := by positivity
    constructor
    · unfold sigmoid
      positivity
    · unfold sigmoid
      rw [div_lt_one hx]
      have := Real.exp_pos (-x)
      linarith

/-- Claim C4: at every iteration `t`, the reward baseline satisfies
`r_bar[t+1] = gamma * r_bar[t] + (1 - gamma) * r[t]`, where `r[t]` is the
reward of the sample drawn at iteration `t`. -/
theorem C4_baseline (cfg : RunConfig) (draws : ℕ → ℕ → ℝ) (init : LoopState) (t : ℕ) :
    (traj cfg draws init (t + 1)).rbar
      = cfg.gamma * (traj cfg draws init t).rbar + (1 - cfg.gamma) * rewardAt cfg draws init t :=
  rfl

/-- Claim C3: at every iteration `t`, every unit `i` is updated as
`w[t+1][i] = w[t][i] + alpha * r[t] * (y[t][i] - p[t][i]) - delta * w[t][i]`
with the raw reward `r[t]` of the current sample; the reinforcement factor is
written each iteration (the source line `rho[t+1] = r[t+1] - r_bar[t]` reads
the still-zero slot `r[t+1]`, storing `0 - r_bar[t]`), and the weight and
baseline updates are independent of the stored `rho`: two states that agree
on weights and baseline give identical updates whatever their `rho`. -/
theorem C3_update (cfg : RunConfig) (draws : ℕ → ℕ → ℝ) (init : LoopState) (t i : ℕ) :
    ((traj cfg draws init (t + 1)).w i
        = (traj cfg draws init t).w i
          + cfg.alpha * rewardAt cfg draws init t
              * (sampleAt cfg draws init t i - sigmoid ((traj cfg draws init t).w i))
          - cfg.delta * (traj cfg draws init t).w i)
    ∧ ((traj cfg draws init (t + 1)).rho = 0 - (traj cfg draws init t).rbar)
    ∧ (∀ (d : ℕ → ℝ) (s1 s2 : LoopState), s1.w = s2.w → s1.rbar = s2.rbar →
        (step cfg d s1).w = (step cfg d s2).w ∧ (step cfg d s1).rbar = (step cfg d s2).rbar) := by
  refine ⟨?_, rfl, ?_⟩
  · rw [traj_succ]
    show (traj cfg draws init t).w i
          + (cfg.alpha * rewardAt cfg draws init t
              * (sampleAt cfg draws init t i - sigmoid ((traj cfg draws init t).w i))
            - cfg.delta * (traj cfg draws init t).w i) = _
    ring
  · intro d s1 s2 hw hr
    have hy : sampleOf d s1 = sampleOf d s2 := by
      unfold sampleOf
      rw [hw]
    refine ⟨?_, ?_⟩ <;> simp [step, hw, hr, hy]

/-- Claim C3, witness: the update equation at a concrete configuration and
iteration, and the independence of the update from the stored reinforcement
factor at two concrete states differing only in `rho`. -/
theorem C3_witness :
    ((traj cfgEx drawsEx initEx 1).w 0
        = (traj cfgEx drawsEx initEx 0).w 0
          + cfgEx.alpha * rewardAt cfgEx drawsEx initEx 0
              * (sampleAt cfgEx drawsEx initEx 0 0 - sigmoid ((traj cfgEx drawsEx initEx 0).w 0))
          - cfgEx.delta * (traj cfgEx drawsEx initEx 0).w 0)
    ∧ ((step cfgEx (drawsEx 0) stA).w = (step cfgEx (drawsEx 0) stB).w
        ∧ (step cfgEx (drawsEx 0) stA).rbar = (step cfgEx (drawsEx 0) stB).rbar) :=
  ⟨(C3_update cfgEx drawsEx initEx 0 0).1,
   (C3_update cfgEx drawsEx initEx 0 0).2.2 (drawsEx 0) stA stB rfl rfl⟩

/-- Claim C8: with the seedable random source and seed-derived initial state
modelled as functions of the seed (the spec requires an injected seedable
source; the notebook itself calls the ambient numpy generator), two runs
with equal configurations and equal seeds produce the same sequence of
sampled vectors and the same run result (terminal state, iteration count,
reported sample, final state). -/
theorem C8_determinism (drawsOf : ℕ → ℕ → ℕ → ℝ) (initOf : ℕ → LoopState)
    (c1 c2 : RunConfig) (s1 s2 : ℕ) (hc : c1 = c2) (hs : s1 = s2) :
    (∀ t, sampleAt c1 (drawsOf s1) (initOf s1) t = sampleAt c2 (drawsOf s2) (initOf s2) t)
    ∧ run c1 (drawsOf s1) (initOf s1) = run c2 (drawsOf s2) (initOf s2) := by
  subst hc
  subst hs
  exact ⟨fun _ => rfl, rfl⟩

/-- Claim C8, witness at a concrete seedable source, seed and configuration. -/
theorem C8_witness :
    (∀ t, sampleAt cfgEx (drawsOfEx 0) (initOfEx 0) t
        = sampleAt cfgEx (drawsOfEx 0) (initOfEx 0) t)
    ∧ run cfgEx (drawsOfEx 0) (initOfEx 0) = run cfgEx (drawsOfEx 0) (initOfEx 0) :=
  C8_determinism drawsOfEx initOfEx cfgEx cfgEx 0 0 rfl rfl

theorem loop_iterations_le (cfg : RunConfig) (draws : ℕ → ℕ → ℝ) :
    ∀ fuel t s lastY, (loop cfg draws fuel t s lastY).iterations ≤ t + fuel - 1 := by
  intro fuel
  induction fuel with
  | zero =>
    intro t s lastY
    show t - 1 ≤ t + 0 - 1
    omega
  | succ f ih =>
    intro t s lastY
    simp only [loop]
    split
    · show t ≤ t + (f + 1) - 1
      omega
    · have h := ih (t + 1) (step cfg (draws t) s) (sampleOf (draws t) s)
      omega

theorem loop_exhausted_iff (cfg : RunConfig) (draws : ℕ → ℕ → ℝ) (init : LoopState) :
    ∀ fuel t lastY,
      (loop cfg draws fuel t (traj cfg draws init t) lastY).outcome = Outcome.budgetExhausted
      ↔ ∀ j, j < fuel → ¬ hitsOpt cfg (sampleAt cfg draws init (t + j)) := by
  intro fuel
  induction fuel with
  | zero =>
    intro t lastY
    constructor
    · intro _ j hj
      exact absurd hj (Nat.not_lt_zero j)
    · intro _
      rfl
  | succ f ih =>
    intro t lastY
    simp only [loop]
    by_cases h : hitsOpt cfg (sampleOf (draws t) (traj cfg draws init t))
    · rw [if_pos h]
      constructor
      · intro hout
        exact Outcome.noConfusion hout
      · intro hall
        exact absurd h (hall 0 (Nat.succ_pos f))
    · rw [if_neg h]
      have hstep : step cfg (draws t) (traj cfg draws init t) = traj cfg draws init (t + 1) := rfl
      rw [hstep, ih (t + 1) (sampleOf (draws t) (traj cfg draws init t))]
      constructor
      · intro hall j hj
        cases j with
        | zero => exact h
        | succ j =>
          have hh := hall j (by omega)
          have e : t + 1 + j = t + (j + 1) := by omega
          rw [e] at hh
          exact hh
      · intro hall j hj
        have hh := hall (j + 1) (by omega)
        have e : t + (j + 1) = t + 1 + j := by omega
        rw [e] at hh
        exact hh

theorem loop_first_hit (cfg : RunConfig) (draws : ℕ → ℕ → ℝ) (init : LoopState) :
    ∀ j fuel t lastY, j < fuel →
      hitsOpt cfg (sampleAt cfg draws init (t + j)) →
      (∀ j2, j2 < j → ¬ hitsOpt cfg (sampleAt cfg draws init (t + j2))) →
      loop cfg draws fuel t (traj cfg draws init t) lastY
        = ⟨Outcome.converged, t + j, sampleAt cfg draws init (t + j),
            traj cfg draws init (t + j + 1)⟩ := by
  intro j
  induction j with
  | zero =>
    intro fuel t lastY hj hhit _
    obtain ⟨f, rfl⟩ : ∃ f, fuel = f + 1 := ⟨fuel - 1, by omega⟩
    simp only [loop]
    rw [if_pos (show hitsOpt cfg (sampleOf (draws t) (traj cfg draws init t)) from hhit)]
    rfl
  | succ j ihj =>
    intro fuel t lastY hj hhit hmin
    obtain ⟨f, rfl⟩ : ∃ f, fuel = f + 1 := ⟨fuel - 1, by omega⟩
    have h0 : ¬ hitsOpt cfg (sampleOf (draws t) (traj cfg draws init t)) :=
      fun hh => hmin 0 (Nat.succ_pos j) hh
    simp only [loop]
    rw [if_neg h0]
    have hstep : step cfg (draws t) (traj cfg draws init t) = traj cfg draws init (t + 1) := rfl
    rw [hstep]
    have hhit2 : hitsOpt cfg (sampleAt cfg draws init (t + 1 + j)) := by
      have e : t + 1 + j = t + (j + 1) := by omega
      rw [e]
      exact hhit
    have hmin2 : ∀ j2, j2 < j → ¬ hitsOpt cfg (sampleAt cfg draws init (t + 1 + j2)) := by
      intro j2 hj2
      have e : t + 1 + j2 = t + (j2 + 1) := by omega
      rw [e]
      exact hmin (j2 + 1) (by omega)
    have hrec := ihj f (t + 1) (sampleOf (draws t) (traj cfg draws init t)) (by omega) hhit2 hmin2
    rw [hrec]
    have e : t + 1 + j = t + (j + 1) := by omega
    rw [e]

theorem run_eq_loop (cfg : RunConfig) (draws : ℕ → ℕ → ℝ) (init : LoopState) :
    run cfg draws init = loop cfg draws (cfg.T - 1) 0 (traj cfg draws init 0) (fun _ => 0) := rfl

/-- Claim C7: for every budget `T > 1` the run performs at most `T - 1`
iterations (it is a total function, so it always terminates; the recorded
iteration index plus one bounds the number of executed iterations); the
outcome is `budgetExhausted` exactly when no sampled vector equals the known
optimum at any iteration below `T - 1`; and on convergence the recorded
iteration is the first whose sample hits the optimum, that sample being the
one reported. -/
theorem C7_termination (cfg : RunConfig) (draws : ℕ → ℕ → ℝ) (init : LoopState)
    (hT : 1 < cfg.T) :
    ((run cfg draws init).iterations + 1 ≤ cfg.T - 1)
    ∧ ((run cfg draws init).outcome = Outcome.budgetExhausted
        ↔ ∀ t, t < cfg.T - 1 → ¬ hitsOpt cfg (sampleAt cfg draws init t))
    ∧ ((run cfg draws init).outcome = Outcome.converged →
        hitsOpt cfg (sampleAt cfg draws init (run cfg draws init).iterations)
        ∧ (∀ t, t < (run cfg draws init).iterations → ¬ hitsOpt cfg (sampleAt cfg draws init t))
        ∧ (run cfg draws init).sample = sampleAt cfg draws init (run cfg draws init).iterations) := by
  classical
  have hiff : (run cfg draws init).outcome = Outcome.budgetExhausted
      ↔ ∀ t, t < cfg.T - 1 → ¬ hitsOpt cfg (sampleAt cfg draws init t) := by
    rw [run_eq_loop, loop_exhausted_iff cfg draws init (cfg.T - 1) 0 (fun _ => 0)]
    constructor
    · intro hall t ht
      have hh := hall t ht
      rwa [Nat.zero_add] at hh
    · intro hall j hj
      rw [Nat.zero_add]
      exact hall j hj
  refine ⟨?_, hiff, ?_⟩
  · have h : (run cfg draws init).iterations ≤ 0 + (cfg.T - 1) - 1 :=
      loop_iterations_le cfg draws (cfg.T - 1) 0 init (fun _ => 0)
    omega
  · intro hconv
    have hex2 : ∃ t, t < cfg.T - 1 ∧ hitsOpt cfg (sampleAt cfg draws init t) := by
      by_contra hno
      push_neg at hno
      have hbe : (run cfg draws init).outcome = Outcome.budgetExhausted :=
        hiff.mpr (fun t ht => hno t ht)
      rw [hconv] at hbe
      exact Outcome.noConfusion hbe
    obtain ⟨t0, ht0, hhit0⟩ := hex2
    have hex : ∃ t, hitsOpt cfg (sampleAt cfg draws init t) := ⟨t0, hhit0⟩
    have h1 : hitsOpt cfg (sampleAt cfg draws init (Nat.find hex)) := Nat.find_spec hex
    have hmin : ∀ j, j < Nat.find hex → ¬ hitsOpt cfg (sampleAt cfg draws init j) :=
      fun j hj => Nat.find_min hex hj
    have htle : Nat.find hex ≤ t0 := Nat.find_min' hex hhit0
    have hrun : run cfg draws init
        = ⟨Outcome.converged, 0 + Nat.find hex, sampleAt cfg draws init (0 + Nat.find hex),
            traj cfg draws init (0 + Nat.find hex + 1)⟩ :=
      loop_first_hit cfg draws init (Nat.find hex) (cfg.T - 1) 0 (fun _ => 0) (by omega)
        (by rwa [Nat.zero_add]) (fun j2 hj2 => by rw [Nat.zero_add]; exact hmin j2 hj2)
    rw [Nat.zero_add] at hrun
    rw [hrun]
    exact ⟨h1, hmin, rfl⟩

/-- Claim C7, witness at a concrete configuration with budget `T = 2`. -/
theorem C7_witness :
    ((run cfgEx drawsEx initEx).iterations + 1 ≤ cfgEx.T - 1)
    ∧ ((run cfgEx drawsEx initEx).outcome = Outcome.budgetExhausted
        ↔ ∀ t, t < cfgEx.T - 1 → ¬ hitsOpt cfgEx (sampleAt cfgEx drawsEx initEx t))
    ∧ ((run cfgEx drawsEx initEx).outcome = Outcome.converged →
        hitsOpt cfgEx (sampleAt cfgEx drawsEx initEx (run cfgEx drawsEx initEx).iterations)
        ∧ (∀ t, t < (run cfgEx drawsEx initEx).iterations →
            ¬ hitsOpt cfgEx (sampleAt cfgEx drawsEx initEx t))
        ∧ (run cfgEx drawsEx initEx).sample
            = sampleAt cfgEx drawsEx initEx (run cfgEx drawsEx initEx).iterations) :=
  C7_termination cfgEx drawsEx initEx (by decide)

end Reinforce
